import Mathlib

/-!
Verification of the OSM tag-extraction core of `sogreen_wp72`
(`src/sogreen_wp72/pipelines/osm_data_extraction/nodes.py`,
function `extract_selected_tags_from_osm_complete`).

The embedding mirrors the Python source: configuration dictionaries become
insertion-ordered association lists with Python `d[k] = v` overwrite
semantics, the `geometry` field of a tag specification is a string-or-list
value exactly as in Python, a feature's tag attributes are an association
list whose values may be null (pandas `NaN`), and the taxonomy compilation
loop is explicit recursion returning `Except` (a missing dictionary key in
Python raises `KeyError`, modelled as a configuration error).
-/

namespace SoGreen

/-- A geometry specification as it appears in the configuration: either a
single string (`"area"`, `"any"`, ...) or a list of strings, mirroring the
Python string-or-list polymorphism. -/
inductive GeomSpec where
  | str : String → GeomSpec
  | list : List String → GeomSpec
deriving DecidableEq

/-- One tag value specification (`{"value": ..., "geometry": ...}`).
The fields are optional to model Python dictionary access: `none` models an
omitted key, on which `tag_spec["value"]` / `tag_spec["geometry"]` raises. -/
structure TagValueSpec where
  value : Option String
  geometry : Option GeomSpec
deriving DecidableEq

/-- One category configuration (`{"category": ..., "tags": {...}}`).
The tag mapping is an insertion-ordered association list from tag key to the
list of its value specifications. -/
structure CategoryConfig where
  category : Option String
  tags : List (String × List TagValueSpec)
deriving DecidableEq

/-- Fatal taxonomy-compilation error (Python `KeyError` on a missing
required field of a tag specification). -/
inductive ConfigError where
  | missingField : String → ConfigError
deriving DecidableEq

/-- Python `k in d` / `d[k]` read on an insertion-ordered dictionary. -/
def dictGet {α : Type} : List (String × α) → String → Option α
  | [], _ => none
  | (k, v) :: rest, key => if k = key then some v else dictGet rest key

/-- Python `d[key] = val`: overwrite the value of an existing key in place,
otherwise append the new key at the end (insertion order). -/
def dictSet {α : Type} : List (String × α) → String → α → List (String × α)
  | [], key, val => [(key, val)]
  | (k, v) :: rest, key, val =>
    if k = key then (k, val) :: rest else (k, v) :: dictSet rest key val

/-- The compiled taxonomy: `osm_query_tags` maps each tag key to its list of
accepted values, `geometry_lookup` maps each `"key=value"` string to its
geometry specification. -/
structure CompiledTaxonomy where
  osm_query_tags : List (String × List String)
  geometry_lookup : List (String × GeomSpec)
deriving DecidableEq

/-- Appending a tag value to its key's accepted-value list when it is not
already present (`if tag_value not in osm_query_tags[tag_key]: append`). -/
def updatedQueryTags (qt : List (String × List String))
    (tagKey tagValue : String) : List (String × List String) :=
  if tagValue ∈ (dictGet qt tagKey).getD [] then qt
  else dictSet qt tagKey ((dictGet qt tagKey).getD [] ++ [tagValue])

/-- Body of the innermost compilation loop (`for tag_spec in tag_values`):
read `value` and `geometry` (failing on an omitted field), append the value
to the key's accepted-value list if new, and assign
`geometry_lookup[f"{tag_key}={tag_value}"] = geometry_spec`. -/
def processTagSpec (tagKey : String) (st : CompiledTaxonomy)
    (spec : TagValueSpec) : Except ConfigError CompiledTaxonomy :=
  match spec.value with
  | none => .error (.missingField "value")
  | some tagValue =>
    match spec.geometry with
    | none => .error (.missingField "geometry")
    | some geometrySpec =>
      .ok { osm_query_tags := updatedQueryTags st.osm_query_tags tagKey tagValue,
            geometry_lookup :=
              dictSet st.geometry_lookup (tagKey ++ "=" ++ tagValue)
                geometrySpec }

/-- The inner loop over the value specifications of one tag key. -/
def processSpecs (tagKey : String) (st : CompiledTaxonomy) :
    List TagValueSpec → Except ConfigError CompiledTaxonomy
  | [] => .ok st
  | spec :: rest =>
    match processTagSpec tagKey st spec with
    | .error e => .error e
    | .ok st' => processSpecs tagKey st' rest

/-- Processing of one `(tag_key, tag_values)` entry: first ensure
`osm_query_tags[tag_key]` exists (`if tag_key not in osm_query_tags:
osm_query_tags[tag_key] = []`), then run the inner loop. -/
def processTagEntry (st : CompiledTaxonomy)
    (entry : String × List TagValueSpec) : Except ConfigError CompiledTaxonomy :=
  let st1 :=
    if (dictGet st.osm_query_tags entry.1).isSome then st
    else { st with osm_query_tags := dictSet st.osm_query_tags entry.1 [] }
  processSpecs entry.1 st1 entry.2

/-- The loop over the tag entries of one category (the `category` name is
read but never used by the compilation logic). -/
def processEntries (st : CompiledTaxonomy) :
    List (String × List TagValueSpec) → Except ConfigError CompiledTaxonomy
  | [] => .ok st
  | entry :: rest =>
    match processTagEntry st entry with
    | .error e => .error e
    | .ok st' => processEntries st' rest

/-- The loop over the category configurations. -/
def processCategories (st : CompiledTaxonomy) :
    List CategoryConfig → Except ConfigError CompiledTaxonomy
  | [] => .ok st
  | cat :: rest =>
    match processEntries st cat.tags with
    | .error e => .error e
    | .ok st' => processCategories st' rest

/-- Taxonomy compilation: the parameter-parsing loop of
`extract_selected_tags_from_osm_complete` (source lines 32-54). -/
def compile (cats : List CategoryConfig) : Except ConfigError CompiledTaxonomy :=
  processCategories { osm_query_tags := [], geometry_lookup := [] } cats

/-- A raw feature row: its tag attributes (an attribute may be present with
a null value, modelling pandas `NaN`) and its geometry type string
(`row.geometry.geom_type`). -/
structure RawFeature where
  tags : List (String × Option String)
  geom_type : String
deriving DecidableEq

/-- The value of attribute `k` on feature `f`, `some v` exactly when the
attribute is present with a non-null value
(`k in row.index and pd.notna(row[k])`). -/
def tagOf (f : RawFeature) (k : String) : Option String :=
  (dictGet f.tags k).getD none

/-- The query keys of the compiled taxonomy in declaration order
(`osm_query_tags.keys()`). -/
def taxQueryKeys (t : CompiledTaxonomy) : List String :=
  t.osm_query_tags.map Prod.fst

/-- `get_osm_tag` (source lines 80-86): scan the query keys in order and
return `f"{tag_key}={tag_value}"` for the first key present with a non-null
value, else `"unknown"`. -/
def get_osm_tag : List String → RawFeature → String
  | [], _ => "unknown"
  | k :: ks, f =>
    match tagOf f k with
    | some v => k ++ "=" ++ v
    | none => get_osm_tag ks f

/-- The outcome of `should_keep_feature` on one row, together with the
diagnostic it records: `rejectUnknown tag` adds `tag` to `unknown_tags` and
returns `False`; `rejectGeometry diag` adds `diag` to `excluded_by_geometry`
and returns `False`. -/
inductive Decision where
  | keep : Decision
  | rejectUnknown : String → Decision
  | rejectGeometry : String → Decision
deriving DecidableEq

/-- The `geometry_type_mapping` dictionary of `should_keep_feature`, with
Python `mapping.get(key, [])` semantics for absent keys. -/
def geometry_type_mapping (kind : String) : List String :=
  if kind = "point" then ["Point"]
  else if kind = "area" then ["Polygon", "MultiPolygon"]
  else if kind = "line" then ["LineString", "MultiLineString"]
  else []

/-- Normalization of a constraint to a list for consistent checking
(source lines 111-113: a plain string becomes a one-element list). -/
def normalizeAllowed : GeomSpec → List String
  | .str s => [s]
  | .list l => l

/-- `should_keep_feature` (source lines 94-129) on one row, as a function of
the geometry lookup, the row's `osm_tag` and its geometry type. -/
def should_keep_feature (lookup : List (String × GeomSpec))
    (osm_tag geomType : String) : Decision :=
  if osm_tag = "unknown" then .rejectUnknown osm_tag
  else
    match dictGet lookup osm_tag with
    | none => .rejectUnknown osm_tag
    | some spec =>
      if spec = GeomSpec.str "any" then .keep
      else if (normalizeAllowed spec).any
          (fun a => (geometry_type_mapping a).contains geomType) then .keep
      else .rejectGeometry (osm_tag ++ " (geometry: " ++ geomType ++ ")")

/-- An output record: exactly the columns `name`, `osm_tag`, `geometry`
selected at source lines 141-154. -/
structure OutputFeature where
  name : Option String
  osm_tag : String
  geometry : String
deriving DecidableEq

/-- Python `set.add`, modelled on a duplicate-free list. -/
def setAdd (s : List String) (x : String) : List String :=
  if x ∈ s then s else s ++ [x]

/-- Whether the feature collection has a `name` column: in a dataframe the
column exists exactly when some row carries the attribute, and row filtering
never removes columns. -/
def hasNameColumn (fs : List RawFeature) : Bool :=
  fs.any (fun f => (dictGet f.tags "name").isSome)

/-- Projection of one kept row to the output columns: when the collection
has no `name` column the code creates one holding an explicit null. -/
def projectFeature (hasName : Bool) (osm_tag : String) (f : RawFeature) :
    OutputFeature :=
  { name := if hasName then tagOf f "name" else none,
    osm_tag := osm_tag,
    geometry := f.geom_type }

/-- Accumulator of the filtering pass: the kept rows in input order and the
two diagnostic sets `unknown_tags` and `excluded_by_geometry`. -/
structure FilterState where
  keptRows : List (RawFeature × String)
  unknown_tags : List String
  excluded_by_geometry : List String
deriving DecidableEq

/-- One step of the filtering pass over a classified row. -/
def filterStep (lookup : List (String × GeomSpec)) (st : FilterState)
    (row : RawFeature × String) : FilterState :=
  match should_keep_feature lookup row.2 row.1.geom_type with
  | .keep => { st with keptRows := st.keptRows ++ [row] }
  | .rejectUnknown tag =>
    { st with unknown_tags := setAdd st.unknown_tags tag }
  | .rejectGeometry diag =>
    { st with excluded_by_geometry := setAdd st.excluded_by_geometry diag }

/-- The result of one extraction run over a feature collection. -/
structure RunResult where
  kept : List OutputFeature
  unknown_tags : List String
  excluded_by_geometry : List String
deriving DecidableEq

/-- The classification and filtering pipeline (source lines 79-154): assign
`osm_tag` to every row, filter by `should_keep_feature` accumulating the
diagnostic sets, then project the kept rows to the output columns. -/
def run (t : CompiledTaxonomy) (fs : List RawFeature) : RunResult :=
  let rows := fs.map (fun f => (f, get_osm_tag (taxQueryKeys t) f))
  let st := rows.foldl (filterStep t.geometry_lookup)
    { keptRows := [], unknown_tags := [], excluded_by_geometry := [] }
  let hasName := hasNameColumn fs
  { kept := st.keptRows.map (fun r => projectFeature hasName r.2 r.1),
    unknown_tags := st.unknown_tags,
    excluded_by_geometry := st.excluded_by_geometry }

/-- The whole core: compile the taxonomy, then classify and filter. -/
def runPipeline (cats : List CategoryConfig) (fs : List RawFeature) :
    Except ConfigError RunResult :=
  match compile cats with
  | .error e => .error e
  | .ok t => .ok (run t fs)

/-- Reading an output record back as a feature row: the output dataframe has
precisely the columns `name` (possibly null), `osm_tag` and the geometry. -/
def outputAsRaw (o : OutputFeature) : RawFeature :=
  { tags := [("name", o.name), ("osm_tag", some o.osm_tag)],
    geom_type := o.geometry }

/-- The specification's fixed mapping from a geometry shape to an atomic
kind: `Point → point`, `Polygon`/`MultiPolygon → area`,
`LineString`/`MultiLineString → line`, any other shape unrepresentable. -/
def shapeKind (g : String) : Option String :=
  if g = "Point" then some "point"
  else if g = "Polygon" ∨ g = "MultiPolygon" then some "area"
  else if g = "LineString" ∨ g = "MultiLineString" then some "line"
  else none

/-- The allowed set of a constraint, normalized to a list (a single string
stands for the one-element set). -/
def constraintKinds : GeomSpec → List String
  | .str s => [s]
  | .list l => l

/-- The geometry validator's decision written from the specification's
wording (§4.3): reject unrecognized tags, keep on the wildcard, otherwise
keep exactly when the shape's derived atomic kind belongs to the
constraint's allowed set. Stated for comparison with
`should_keep_feature`. -/
def specValidatorDecision (lookup : List (String × GeomSpec))
    (osm_tag geomType : String) : Decision :=
  if osm_tag = "unknown" then .rejectUnknown osm_tag
  else
    match dictGet lookup osm_tag with
    | none => .rejectUnknown osm_tag
    | some spec =>
      if spec = GeomSpec.str "any" then .keep
      else
        match shapeKind geomType with
        | some dk =>
          if dk ∈ constraintKinds spec then .keep
          else .rejectGeometry (osm_tag ++ " (geometry: " ++ geomType ++ ")")
        | none => .rejectGeometry (osm_tag ++ " (geometry: " ++ geomType ++ ")")

/-- The validator's decision on one raw feature after classification. -/
def featureDecision (t : CompiledTaxonomy) (f : RawFeature) : Decision :=
  should_keep_feature t.geometry_lookup (get_osm_tag (taxQueryKeys t) f)
    f.geom_type

/-- The raw features of a collection that survive the filtering pass. -/
def keptRawFeatures (t : CompiledTaxonomy) (fs : List RawFeature) :
    List RawFeature :=
  fs.filter (fun f => decide (featureDecision t f = Decision.keep))

/-- All tag value specifications of a configuration carry both required
fields. -/
def allSpecsComplete (cats : List CategoryConfig) : Prop :=
  ∀ cat ∈ cats, ∀ e ∈ cat.tags, ∀ s ∈ e.2,
    s.value.isSome = true ∧ s.geometry.isSome = true

/-- Well-formedness of a compiled taxonomy: every geometry-lookup key is a
`"key=value"` string whose key maps in `osm_query_tags` to a value list
containing that value. -/
def lookupInv (t : CompiledTaxonomy) : Prop :=
  ∀ tag spec, dictGet t.geometry_lookup tag = some spec →
    ∃ k v vs, tag = k ++ "=" ++ v ∧
      dictGet t.osm_query_tags k = some vs ∧ v ∈ vs

theorem mem_geometry_type_mapping (a g : String) :
    g ∈ geometry_type_mapping a ↔ shapeKind g = some a := by
  constructor
  · intro h
    unfold geometry_type_mapping at h
    split_ifs at h with h1 h2 h3
    · simp only [List.mem_singleton] at h
      subst h1; subst h; decide
    · simp only [List.mem_cons, List.mem_singleton, List.not_mem_nil,
        or_false] at h
      subst h2
      rcases h with rfl | rfl <;> decide
    · simp only [List.mem_cons, List.mem_singleton, List.not_mem_nil,
        or_false] at h
      subst h3
      rcases h with rfl | rfl <;> decide
    · simp at h
  · intro h
    unfold shapeKind at h
    split_ifs at h with h1 h2 h3
    · simp only [Option.some.injEq] at h
      subst h1; subst h; decide
    · simp only [Option.some.injEq] at h
      subst h
      rcases h2 with rfl | rfl <;> decide
    · simp only [Option.some.injEq] at h
      subst h
      rcases h3 with rfl | rfl <;> decide

theorem any_mapping_iff (allowed : List String) (g : String) :
    (allowed.any (fun a => (geometry_type_mapping a).contains g)) = true ↔
      ∃ dk, shapeKind g = some dk ∧ dk ∈ allowed := by
  rw [List.any_eq_true]
  constructor
  · rintro ⟨a, ha, hc⟩
    have hm : g ∈ geometry_type_mapping a := by simpa using hc
    exact ⟨a, (mem_geometry_type_mapping a g).mp hm, ha⟩
  · rintro ⟨dk, hsk, hmem⟩
    refine ⟨dk, hmem, ?_⟩
    simpa using (mem_geometry_type_mapping dk g).mpr hsk

theorem normalizeAllowed_eq_constraintKinds (spec : GeomSpec) :
    normalizeAllowed spec = constraintKinds spec := by
  cases spec <;> rfl

theorem should_keep_eq_specDecision (lookup : List (String × GeomSpec))
    (osm_tag geomType : String) :
    should_keep_feature lookup osm_tag geomType =
      specValidatorDecision lookup osm_tag geomType := by
  unfold should_keep_feature specValidatorDecision
  by_cases h : osm_tag = "unknown"
  · simp [h]
  · simp only [h, if_false]
    cases hget : dictGet lookup osm_tag with
    | none => rfl
    | some spec =>
      by_cases hany : spec = GeomSpec.str "any"
      · simp [hany]
      · simp only [hany, if_false]
        rw [normalizeAllowed_eq_constraintKinds]
        cases hsk : shapeKind geomType with
        | none =>
          have hfalse : ((constraintKinds spec).any
              (fun a => (geometry_type_mapping a).contains geomType)) = false := by
            rw [Bool.eq_false_iff]
            intro htrue
            obtain ⟨dk, hdk, _⟩ := (any_mapping_iff _ _).mp htrue
            rw [hsk] at hdk
            exact Option.noConfusion hdk
          rw [hfalse]
          simp
        | some dk =>
          by_cases hmem : dk ∈ constraintKinds spec
          · have htrue : ((constraintKinds spec).any
                (fun a => (geometry_type_mapping a).contains geomType)) = true :=
              (any_mapping_iff _ _).mpr ⟨dk, hsk, hmem⟩
            rw [htrue]
            simp [hmem]
          · have hfalse : ((constraintKinds spec).any
                (fun a => (geometry_type_mapping a).contains geomType)) = false := by
              rw [Bool.eq_false_iff]
              intro htrue
              obtain ⟨dk', hdk', hmem'⟩ := (any_mapping_iff _ _).mp htrue
              rw [hsk] at hdk'
              cases hdk'
              exact hmem hmem'
            rw [hfalse]
            simp [hmem]

/-- C1: the geometry validator agrees, on every lookup, tag and shape, with
the decision procedure stated in the specification: reject with
`unrecognizedTag` when the tag is the sentinel or absent from the lookup,
keep on wildcard `any`, otherwise keep exactly when the shape's derived
atomic kind (Point→point, Polygon/MultiPolygon→area,
LineString/MultiLineString→line, anything else non-matching) is a member of
the constraint's allowed set, rejecting with a `geometryMismatch` diagnostic
otherwise. -/
theorem validator_matches_spec (lookup : List (String × GeomSpec))
    (osm_tag geomType : String) :
    should_keep_feature lookup osm_tag geomType =
      specValidatorDecision lookup osm_tag geomType :=
  should_keep_eq_specDecision lookup osm_tag geomType

theorem get_osm_tag_all_none (f : RawFeature) :
    ∀ ks, (∀ k ∈ ks, tagOf f k = none) → get_osm_tag ks f = "unknown" := by
  intro ks
  induction ks with
  | nil => intro _; rfl
  | cons k ks ih =>
    intro h
    simp only [get_osm_tag]
    rw [h k (List.mem_cons_self k ks)]
    exact ih (fun k' hk' => h k' (List.mem_cons_of_mem _ hk'))

theorem get_osm_tag_of_first (f : RawFeature) :
    ∀ ks1 k ks2 v, (∀ k' ∈ ks1, tagOf f k' = none) → tagOf f k = some v →
      get_osm_tag (ks1 ++ k :: ks2) f = k ++ "=" ++ v := by
  intro ks1
  induction ks1 with
  | nil =>
    intro k ks2 v _ hv
    rw [List.nil_append]
    simp only [get_osm_tag]
    rw [hv]
  | cons k0 ks1 ih =>
    intro k ks2 v hnone hv
    rw [List.cons_append]
    simp only [get_osm_tag]
    rw [hnone k0 (List.mem_cons_self _ _)]
    exact ih k ks2 v (fun k' h => hnone k' (List.mem_cons_of_mem _ h)) hv

/-- C2: the classifier scans the query keys in declaration order; for the
first key present on the feature with a non-null value it assigns the
canonical tag `"{key}={value}"`, ignoring all later keys; when no query key
is present with a non-null value it assigns the sentinel `"unknown"`. -/
theorem classifier_first_match_wins (f : RawFeature) :
    (∀ ks, (∀ k ∈ ks, tagOf f k = none) → get_osm_tag ks f = "unknown") ∧
    (∀ ks1 k ks2 v, (∀ k' ∈ ks1, tagOf f k' = none) → tagOf f k = some v →
      get_osm_tag (ks1 ++ k :: ks2) f = k ++ "=" ++ v) :=
  ⟨get_osm_tag_all_none f, get_osm_tag_of_first f⟩

/-- Witness for the classifier claim: a feature tagged both
`highway=cycleway` (earlier key) and `amenity=bench` (later key) is
classified as `highway=cycleway`, and a feature carrying no query key (its
only present key is null) is classified `unknown`. -/
theorem classifier_first_match_wins_witness :
    get_osm_tag ["highway", "amenity"]
        ⟨[("highway", some "cycleway"), ("amenity", some "bench")],
          "LineString"⟩ = "highway=cycleway" ∧
    get_osm_tag ["highway", "amenity"]
        ⟨[("highway", none)], "LineString"⟩ = "unknown" :=
  ⟨(classifier_first_match_wins _).2 [] "highway" ["amenity"] "cycleway"
      (by simp) (by decide),
   (classifier_first_match_wins _).1 ["highway", "amenity"] (by decide)⟩

theorem processSpecs_ok_complete (tagKey : String) :
    ∀ specs st st', processSpecs tagKey st specs = .ok st' →
      ∀ s ∈ specs, s.value.isSome = true ∧ s.geometry.isSome = true := by
  intro specs
  induction specs with
  | nil => intro st st' _ s hs; exact absurd hs (List.not_mem_nil s)
  | cons spec rest ih =>
    intro st st' h s hs
    unfold processSpecs at h
    cases hps : processTagSpec tagKey st spec with
    | error e => rw [hps] at h; exact Except.noConfusion h
    | ok st1 =>
      rw [hps] at h
      rcases List.mem_cons.mp hs with rfl | hmem
      · unfold processTagSpec at hps
        cases hv : s.value with
        | none => rw [hv] at hps; exact Except.noConfusion hps
        | some v =>
          rw [hv] at hps
          cases hg : s.geometry with
          | none => rw [hg] at hps; exact Except.noConfusion hps
          | some g => exact ⟨by simp [hv], by simp [hg]⟩
      · exact ih st1 st' h s hmem

theorem processEntries_ok_complete :
    ∀ entries st st', processEntries st entries = .ok st' →
      ∀ e ∈ entries, ∀ s ∈ e.2,
        s.value.isSome = true ∧ s.geometry.isSome = true := by
  intro entries
  induction entries with
  | nil => intro st st' _ e he; exact absurd he (List.not_mem_nil e)
  | cons entry rest ih =>
    intro st st' h e he
    unfold processEntries at h
    cases hpe : processTagEntry st entry with
    | error er => rw [hpe] at h; exact Except.noConfusion h
    | ok st1 =>
      rw [hpe] at h
      rcases List.mem_cons.mp he with rfl | hmem
      · unfold processTagEntry at hpe
        exact processSpecs_ok_complete e.1 e.2 _ st1 hpe
      · exact ih st1 st' h e hmem

theorem processCategories_ok_complete :
    ∀ cats st st', processCategories st cats = .ok st' →
      allSpecsComplete cats := by
  intro cats
  induction cats with
  | nil => intro st st' _ cat hc; exact absurd hc (List.not_mem_nil cat)
  | cons cat rest ih =>
    intro st st' h c hc
    unfold processCategories at h
    cases hpc : processEntries st cat.tags with
    | error er => rw [hpc] at h; exact Except.noConfusion h
    | ok st1 =>
      rw [hpc] at h
      rcases List.mem_cons.mp hc with rfl | hmem
      · exact processEntries_ok_complete c.tags st st1 hpc
      · exact ih st1 st' h c hmem

/-- C3 counterexample: a tag value specification whose `geometry` field is
the empty set compiles without any error, contrary to the claim that
compilation fails in that case. -/
theorem empty_geometry_compiles :
    compile [⟨some "a", [("k", [⟨some "v", some (.list [])⟩])]⟩] =
      .ok ⟨[("k", ["v"])], [("k=v", .list [])]⟩ := by
  rfl

/-- C3 (amended): taxonomy compilation fails with a configuration error
whenever some tag value specification omits the `value` field or the
`geometry` field; an empty geometry set, however, is accepted without
error. -/
theorem compile_fails_on_incomplete_spec (cats : List CategoryConfig)
    (h : ¬ allSpecsComplete cats) : ∃ e, compile cats = .error e := by
  cases hc : compile cats with
  | error e => exact ⟨e, rfl⟩
  | ok t => exact absurd (processCategories_ok_complete cats _ t hc) h

/-- Witness for the amended compilation-error claim: a specification
omitting `value` makes compilation fail. -/
theorem compile_fails_on_incomplete_spec_witness :
    ∃ e, compile [⟨some "a", [("k", [⟨none, some (.str "area")⟩])]⟩] =
      .error e :=
  compile_fails_on_incomplete_spec _ (by unfold allSpecsComplete; decide)

theorem dictGet_dictSet_self {α : Type} (d : List (String × α)) (k : String)
    (v : α) : dictGet (dictSet d k v) k = some v := by
  induction d with
  | nil => simp [dictSet, dictGet]
  | cons p rest ih =>
    obtain ⟨k0, v0⟩ := p
    unfold dictSet
    by_cases h : k0 = k
    · simp [dictGet, h]
    · rw [if_neg h]
      unfold dictGet
      rw [if_neg h]
      exact ih

theorem dictGet_dictSet_ne {α : Type} (d : List (String × α)) (k k' : String)
    (v : α) (hne : ¬ k = k') :
    dictGet (dictSet d k v) k' = dictGet d k' := by
  induction d with
  | nil => simp [dictSet, dictGet, hne]
  | cons p rest ih =>
    obtain ⟨k0, v0⟩ := p
    unfold dictSet
    by_cases h : k0 = k
    · subst h
      simp [dictGet, hne]
    · rw [if_neg h]
      unfold dictGet
      by_cases h2 : k0 = k'
      · rw [if_pos h2, if_pos h2]
      · rw [if_neg h2, if_neg h2]
        exact ih

theorem updatedQueryTags_self (qt : List (String × List String))
    (tagKey tagValue : String) :
    ∃ vs, dictGet (updatedQueryTags qt tagKey tagValue) tagKey = some vs ∧
      tagValue ∈ vs := by
  unfold updatedQueryTags
  by_cases hmem : tagValue ∈ (dictGet qt tagKey).getD []
  · rw [if_pos hmem]
    cases hq : dictGet qt tagKey with
    | none => rw [hq] at hmem; simp at hmem
    | some vs => exact ⟨vs, rfl, by rw [hq] at hmem; simpa using hmem⟩
  · rw [if_neg hmem]
    exact ⟨_, dictGet_dictSet_self _ _ _,
      List.mem_append_right _ (List.mem_singleton.mpr rfl)⟩

theorem updatedQueryTags_preserve (qt : List (String × List String))
    (tagKey tagValue k : String) (vs : List String) (v : String)
    (h : dictGet qt k = some vs) (hv : v ∈ vs) :
    ∃ vs', dictGet (updatedQueryTags qt tagKey tagValue) k = some vs' ∧
      v ∈ vs' := by
  unfold updatedQueryTags
  by_cases hmem : tagValue ∈ (dictGet qt tagKey).getD []
  · rw [if_pos hmem]
    exact ⟨vs, h, hv⟩
  · rw [if_neg hmem]
    by_cases hk : tagKey = k
    · subst hk
      rw [h]
      rw [dictGet_dictSet_self]
      exact ⟨_, rfl, List.mem_append_left _ (by simpa using hv)⟩
    · rw [dictGet_dictSet_ne _ _ _ _ hk]
      exact ⟨vs, h, hv⟩

theorem processTagSpec_inv (tagKey : String) (st st' : CompiledTaxonomy)
    (spec : TagValueSpec) (hinv : lookupInv st)
    (h : processTagSpec tagKey st spec = .ok st') : lookupInv st' := by
  unfold processTagSpec at h
  cases hv : spec.value with
  | none => rw [hv] at h; exact Except.noConfusion h
  | some tagValue =>
    rw [hv] at h
    cases hg : spec.geometry with
    | none => rw [hg] at h; exact Except.noConfusion h
    | some gspec =>
      rw [hg] at h
      injection h with h
      subst h
      intro tag sp htag
      simp only at htag
      by_cases heq : tag = tagKey ++ "=" ++ tagValue
      · subst heq
        obtain ⟨vs, hq, hmem⟩ := updatedQueryTags_self st.osm_query_tags
          tagKey tagValue
        exact ⟨tagKey, tagValue, vs, rfl, hq, hmem⟩
      · rw [dictGet_dictSet_ne _ _ _ _ (fun hh => heq hh.symm)] at htag
        obtain ⟨k, v, vs, htag', hq, hvmem⟩ := hinv tag sp htag
        obtain ⟨vs', hq', hvmem'⟩ := updatedQueryTags_preserve
          st.osm_query_tags tagKey tagValue k vs v hq hvmem
        exact ⟨k, v, vs', htag', hq', hvmem'⟩

theorem processSpecs_inv (tagKey : String) :
    ∀ specs st st', lookupInv st →
      processSpecs tagKey st specs = .ok st' → lookupInv st' := by
  intro specs
  induction specs with
  | nil =>
    intro st st' hinv h
    unfold processSpecs at h
    injection h with h
    subst h
    exact hinv
  | cons spec rest ih =>
    intro st st' hinv h
    unfold processSpecs at h
    cases hps : processTagSpec tagKey st spec with
    | error e => rw [hps] at h; exact Except.noConfusion h
    | ok st1 =>
      rw [hps] at h
      exact ih st1 st' (processTagSpec_inv tagKey st st1 spec hinv hps) h

theorem processTagEntry_inv (st st' : CompiledTaxonomy)
    (entry : String × List TagValueSpec) (hinv : lookupInv st)
    (h : processTagEntry st entry = .ok st') : lookupInv st' := by
  unfold processTagEntry at h
  by_cases hk : (dictGet st.osm_query_tags entry.1).isSome = true
  · rw [if_pos hk] at h
    exact processSpecs_inv entry.1 entry.2 st st' hinv h
  · rw [if_neg hk] at h
    refine processSpecs_inv entry.1 entry.2 _ st' ?_ h
    intro tag sp htag
    obtain ⟨k, v, vs, htag', hq, hvmem⟩ := hinv tag sp htag
    refine ⟨k, v, vs, htag', ?_, hvmem⟩
    have hne : ¬ entry.1 = k := by
      intro hh
      subst hh
      rw [hq] at hk
      exact hk rfl
    rw [dictGet_dictSet_ne _ _ _ _ hne]
    exact hq

theorem processEntries_inv :
    ∀ entries st st', lookupInv st →
      processEntries st entries = .ok st' → lookupInv st' := by
  intro entries
  induction entries with
  | nil =>
    intro st st' hinv h
    unfold processEntries at h
    injection h with h
    subst h
    exact hinv
  | cons entry rest ih =>
    intro st st' hinv h
    unfold processEntries at h
    cases hpe : processTagEntry st entry with
    | error e => rw [hpe] at h; exact Except.noConfusion h
    | ok st1 =>
      rw [hpe] at h
      exact ih st1 st' (processTagEntry_inv st st1 entry hinv hpe) h

theorem processCategories_inv :
    ∀ cats st st', lookupInv st →
      processCategories st cats = .ok st' → lookupInv st' := by
  intro cats
  induction cats with
  | nil =>
    intro st st' hinv h
    unfold processCategories at h
    injection h with h
    subst h
    exact hinv
  | cons cat rest ih =>
    intro st st' hinv h
    unfold processCategories at h
    cases hpc : processEntries st cat.tags with
    | error e => rw [hpc] at h; exact Except.noConfusion h
    | ok st1 =>
      rw [hpc] at h
      exact ih st1 st' (processEntries_inv cat.tags st st1 hinv hpc) h

theorem compile_lookup_wf (cats : List CategoryConfig) (t : CompiledTaxonomy)
    (h : compile cats = .ok t) : lookupInv t := by
  refine processCategories_inv cats _ t ?_ h
  intro tag sp htag
  exact absurd htag (by simp [dictGet])

theorem append_eq_ne_unknown (k v : String) : ¬ (k ++ "=" ++ v = "unknown") := by
  intro h
  have h1 : '=' ∈ (k ++ "=" ++ v).data := by
    rw [String.data_append, String.data_append]
    exact List.mem_append_left _ (List.mem_append_right _ (by decide))
  rw [h] at h1
  exact absurd h1 (by decide)

theorem keep_implies_lookup (lookup : List (String × GeomSpec))
    (tag g : String) (h : should_keep_feature lookup tag g = .keep) :
    ¬ tag = "unknown" ∧ ∃ spec, dictGet lookup tag = some spec := by
  unfold should_keep_feature at h
  by_cases hu : tag = "unknown"
  · rw [if_pos hu] at h
    exact Decision.noConfusion h
  · rw [if_neg hu] at h
    refine ⟨hu, ?_⟩
    cases hget : dictGet lookup tag with
    | none => rw [hget] at h; exact Decision.noConfusion h
    | some spec => exact ⟨spec, rfl⟩

theorem setAdd_mem_self (s : List String) (x : String) : x ∈ setAdd s x := by
  unfold setAdd
  by_cases h : x ∈ s
  · rw [if_pos h]; exact h
  · rw [if_neg h]
    exact List.mem_append_right _ (List.mem_singleton.mpr rfl)

theorem setAdd_mem_of_mem (s : List String) (x y : String) (h : x ∈ s) :
    x ∈ setAdd s y := by
  unfold setAdd
  by_cases hy : y ∈ s
  · rw [if_pos hy]; exact h
  · rw [if_neg hy]; exact List.mem_append_left _ h

theorem foldl_filterStep_kept (lookup : List (String × GeomSpec)) :
    ∀ (rows : List (RawFeature × String)) (st0 : FilterState),
      ((rows.foldl (filterStep lookup) st0).keptRows) =
      st0.keptRows ++ rows.filter
        (fun r => decide
          (should_keep_feature lookup r.2 r.1.geom_type = Decision.keep)) := by
  intro rows
  induction rows with
  | nil => intro st0; simp
  | cons r rest ih =>
    intro st0
    rw [List.foldl_cons, List.filter_cons]
    cases hd : should_keep_feature lookup r.2 r.1.geom_type with
    | keep => rw [ih]; simp [filterStep, hd]
    | rejectUnknown tag => rw [ih]; simp [filterStep, hd]
    | rejectGeometry d => rw [ih]; simp [filterStep, hd]

theorem foldl_filterStep_unknown_mono (lookup : List (String × GeomSpec)) :
    ∀ (rows : List (RawFeature × String)) (st0 : FilterState) x,
      x ∈ st0.unknown_tags →
      x ∈ (rows.foldl (filterStep lookup) st0).unknown_tags := by
  intro rows
  induction rows with
  | nil => intro st0 x h; exact h
  | cons r rest ih =>
    intro st0 x h
    rw [List.foldl_cons]
    apply ih
    cases hd : should_keep_feature lookup r.2 r.1.geom_type with
    | keep => simpa [filterStep, hd] using h
    | rejectUnknown tag =>
      simp only [filterStep, hd]
      exact setAdd_mem_of_mem _ _ _ h
    | rejectGeometry d => simpa [filterStep, hd] using h

theorem foldl_filterStep_unknown_of (lookup : List (String × GeomSpec)) :
    ∀ (rows : List (RawFeature × String)) (st0 : FilterState) r, r ∈ rows →
      ∀ tag,
      should_keep_feature lookup r.2 r.1.geom_type = .rejectUnknown tag →
      tag ∈ (rows.foldl (filterStep lookup) st0).unknown_tags := by
  intro rows
  induction rows with
  | nil => intro st0 r h; exact absurd h (List.not_mem_nil r)
  | cons r0 rest ih =>
    intro st0 r hr tag hd
    rw [List.foldl_cons]
    rcases List.mem_cons.mp hr with rfl | hmem
    · apply foldl_filterStep_unknown_mono
      simp only [filterStep, hd]
      exact setAdd_mem_self _ _
    · exact ih _ r hmem tag hd

theorem foldl_filterStep_geom_mono (lookup : List (String × GeomSpec)) :
    ∀ (rows : List (RawFeature × String)) (st0 : FilterState) x,
      x ∈ st0.excluded_by_geometry →
      x ∈ (rows.foldl (filterStep lookup) st0).excluded_by_geometry := by
  intro rows
  induction rows with
  | nil => intro st0 x h; exact h
  | cons r rest ih =>
    intro st0 x h
    rw [List.foldl_cons]
    apply ih
    cases hd : should_keep_feature lookup r.2 r.1.geom_type with
    | keep => simpa [filterStep, hd] using h
    | rejectUnknown tag => simpa [filterStep, hd] using h
    | rejectGeometry d =>
      simp only [filterStep, hd]
      exact setAdd_mem_of_mem _ _ _ h

theorem foldl_filterStep_geom_of (lookup : List (String × GeomSpec)) :
    ∀ (rows : List (RawFeature × String)) (st0 : FilterState) r, r ∈ rows →
      ∀ d,
      should_keep_feature lookup r.2 r.1.geom_type = .rejectGeometry d →
      d ∈ (rows.foldl (filterStep lookup) st0).excluded_by_geometry := by
  intro rows
  induction rows with
  | nil => intro st0 r h; exact absurd h (List.not_mem_nil r)
  | cons r0 rest ih =>
    intro st0 r hr d hd
    rw [List.foldl_cons]
    rcases List.mem_cons.mp hr with rfl | hmem
    · apply foldl_filterStep_geom_mono
      simp only [filterStep, hd]
      exact setAdd_mem_self _ _
    · exact ih _ r hmem d hd

/-- C5: when two categories declare the same `(key, value)` pair with
different geometry constraints, compilation succeeds (no crash) and the
compiled geometry lookup holds the constraint of the later declaration in
configuration order. -/
theorem duplicate_pair_last_wins (c1 c2 : Option String) (k v : String)
    (g1 g2 : GeomSpec) (_hne : g1 ≠ g2) :
    ∃ t, compile [⟨c1, [(k, [⟨some v, some g1⟩])]⟩,
        ⟨c2, [(k, [⟨some v, some g2⟩])]⟩] = .ok t ∧
      dictGet t.geometry_lookup (k ++ "=" ++ v) = some g2 := by
  refine ⟨⟨[(k, [v])], [(k ++ "=" ++ v, g2)]⟩, ?_, ?_⟩
  · simp [compile, processCategories, processEntries, processTagEntry,
      processSpecs, processTagSpec, updatedQueryTags, dictGet, dictSet]
  · unfold dictGet
    rw [if_pos rfl]

/-- Witness for the duplicate-declaration claim at the specification's own
scenario: `park=yes` declared as `point` and then as `area` compiles to the
later constraint `area`. -/
theorem duplicate_pair_last_wins_witness :
    ∃ t, compile [⟨some "a", [("park", [⟨some "yes", some (.str "point")⟩])]⟩,
        ⟨some "b", [("park", [⟨some "yes", some (.str "area")⟩])]⟩] = .ok t ∧
      dictGet t.geometry_lookup ("park" ++ "=" ++ "yes") =
        some (.str "area") :=
  duplicate_pair_last_wins (some "a") (some "b") "park" "yes"
    (.str "point") (.str "area") (by decide)

/-- C6: tag round-trip — for every feature kept by the run, its output
`osm_tag` string is of the form `"key=value"` for a pair declared in the
compiled taxonomy: the key maps in `osm_query_tags` to a value list
containing the value, and the tag has a geometry-lookup entry. -/
theorem tag_round_trip (cats : List CategoryConfig) (t : CompiledTaxonomy)
    (fs : List RawFeature) (o : OutputFeature) (hc : compile cats = .ok t)
    (ho : o ∈ (run t fs).kept) :
    ∃ k v vs, o.osm_tag = k ++ "=" ++ v ∧
      dictGet t.osm_query_tags k = some vs ∧ v ∈ vs ∧
      ∃ g, dictGet t.geometry_lookup o.osm_tag = some g := by
  have hinv := compile_lookup_wf cats t hc
  simp only [run] at ho
  rw [foldl_filterStep_kept] at ho
  simp only [List.nil_append] at ho
  obtain ⟨r, hr, hor⟩ := List.mem_map.mp ho
  have hfil := List.mem_filter.mp hr
  have hkeep : should_keep_feature t.geometry_lookup r.2 r.1.geom_type =
      Decision.keep := of_decide_eq_true hfil.2
  obtain ⟨hu, spec, hget⟩ := keep_implies_lookup _ _ _ hkeep
  obtain ⟨k, v, vs, htag, hq, hvmem⟩ := hinv r.2 spec hget
  have hosm : o.osm_tag = r.2 := by rw [← hor]; rfl
  refine ⟨k, v, vs, by rw [hosm, htag], hq, hvmem, spec, ?_⟩
  rw [hosm]
  exact hget

/-- Witness for the tag round-trip claim: the kept `leisure=park` polygon's
output tag decomposes into the declared `(leisure, park)` pair. -/
theorem tag_round_trip_witness :
    ∃ k v vs,
      (OutputFeature.mk none "leisure=park" "Polygon").osm_tag =
        k ++ "=" ++ v ∧
      dictGet [("leisure", ["park"])] k = some vs ∧ v ∈ vs ∧
      ∃ g, dictGet [("leisure=park", GeomSpec.str "area")] "leisure=park" =
        some g :=
  tag_round_trip
    [⟨some "green", [("leisure", [⟨some "park", some (.str "area")⟩])]⟩]
    ⟨[("leisure", ["park"])], [("leisure=park", .str "area")]⟩
    [⟨[("leisure", some "park")], "Polygon"⟩]
    ⟨none, "leisure=park", "Polygon"⟩ (by rfl) (by decide)

/-- C10: a feature whose canonical tag carries a list constraint none of
whose elements names a shape class containing the feature's shape — in
particular an empty list, or a list of strings other than `point`, `area`,
`line` — is rejected with the `geometryMismatch` diagnostic, and the
validator returns normally. -/
theorem list_constraint_rejects (cats : List CategoryConfig)
    (t : CompiledTaxonomy) (hc : compile cats = .ok t) (tag g : String)
    (l : List String) (hl : dictGet t.geometry_lookup tag = some (.list l))
    (hnomatch : ∀ a ∈ l, ¬ g ∈ geometry_type_mapping a) :
    should_keep_feature t.geometry_lookup tag g =
      .rejectGeometry (tag ++ " (geometry: " ++ g ++ ")") := by
  obtain ⟨k, v, vs, htag, -, -⟩ := compile_lookup_wf cats t hc tag _ hl
  have hu : ¬ tag = "unknown" := by rw [htag]; exact append_eq_ne_unknown k v
  have hfalse : (l.any (fun a => (geometry_type_mapping a).contains g)) =
      false := by
    rw [List.any_eq_false]
    intro a ha
    simpa using hnomatch a ha
  simp [should_keep_feature, hu, hl, normalizeAllowed, hfalse]
  exact hnomatch

/-- Witness for the list-constraint claim: a tag compiled with the junk
list constraint `["blah"]` rejects a polygon with the mismatch
diagnostic. -/
theorem list_constraint_rejects_witness :
    should_keep_feature [("k=v", GeomSpec.list ["blah"])] "k=v" "Polygon" =
      .rejectGeometry ("k=v" ++ " (geometry: " ++ "Polygon" ++ ")") :=
  list_constraint_rejects
    [⟨some "a", [("k", [⟨some "v", some (.list ["blah"])⟩])]⟩]
    ⟨[("k", ["v"])], [("k=v", .list ["blah"])]⟩ (by rfl) "k=v" "Polygon"
    ["blah"] (by rfl) (by decide)

theorem foldl_filterStep_all_keep (lookup : List (String × GeomSpec)) :
    ∀ (rows : List (RawFeature × String)) (st0 : FilterState),
      (∀ r ∈ rows,
        should_keep_feature lookup r.2 r.1.geom_type = Decision.keep) →
      rows.foldl (filterStep lookup) st0 =
        { st0 with keptRows := st0.keptRows ++ rows } := by
  intro rows
  induction rows with
  | nil => intro st0 _; simp
  | cons r rest ih =>
    intro st0 h
    rw [List.foldl_cons]
    rw [ih _ (fun r' h' => h r' (List.mem_cons_of_mem _ h'))]
    simp [filterStep, h r (List.mem_cons_self _ _)]

/-- C4 counterexample: a `leisure=park` point feature under an `any`
constraint is kept by the first run, but re-running the pipeline on its own
projected output keeps nothing — the projection to the output columns drops
the `leisure` attribute, so re-classification yields `unknown`. -/
theorem rerun_on_projected_output_drops_feature :
    compile [⟨some "c", [("leisure", [⟨some "park", some (.str "any")⟩])]⟩] =
      .ok ⟨[("leisure", ["park"])], [("leisure=park", .str "any")]⟩ ∧
    (run ⟨[("leisure", ["park"])], [("leisure=park", .str "any")]⟩
      [⟨[("leisure", some "park")], "Point"⟩]).kept.length = 1 ∧
    (run ⟨[("leisure", ["park"])], [("leisure=park", .str "any")]⟩
      ((run ⟨[("leisure", ["park"])], [("leisure=park", .str "any")]⟩
        [⟨[("leisure", some "park")], "Point"⟩]).kept.map
          outputAsRaw)).kept.length = 0 :=
  ⟨rfl, rfl, rfl⟩

/-- C4 (amended): classification and validation are stable under
repetition on the kept features themselves (before output projection):
re-running the classify-then-validate pipeline on the kept raw features —
which retain their original tag attributes — keeps every one of them and
produces no diagnostics. The claim as stated fails because the run's output
records retain only `name`, `osm_tag` and the geometry, so re-classifying
the projected output yields `unknown`. -/
theorem rerun_on_kept_raw_keeps_all (t : CompiledTaxonomy)
    (fs : List RawFeature) :
    run t (keptRawFeatures t fs) =
      { kept := (keptRawFeatures t fs).map (fun f =>
          projectFeature (hasNameColumn (keptRawFeatures t fs))
            (get_osm_tag (taxQueryKeys t) f) f),
        unknown_tags := [], excluded_by_geometry := [] } := by
  have hall : ∀ r ∈ (keptRawFeatures t fs).map
      (fun f => (f, get_osm_tag (taxQueryKeys t) f)),
      should_keep_feature t.geometry_lookup r.2 r.1.geom_type =
        Decision.keep := by
    intro r hr
    obtain ⟨f, hf, rfl⟩ := List.mem_map.mp hr
    exact of_decide_eq_true (List.mem_filter.mp hf).2
  simp only [run]
  rw [foldl_filterStep_all_keep _ _ _ hall]
  simp [List.map_map]

/-- C7: per-feature classification and validation are total — every input
feature either is kept (its projection appears in the output) or is
rejected with its diagnostic recorded in the corresponding diagnostic set;
no outcome aborts the batch. -/
theorem per_feature_never_aborts (t : CompiledTaxonomy)
    (fs : List RawFeature) (f : RawFeature) (hf : f ∈ fs) :
    (featureDecision t f = .keep ∧
      projectFeature (hasNameColumn fs) (get_osm_tag (taxQueryKeys t) f) f ∈
        (run t fs).kept) ∨
    (∃ tag, featureDecision t f = .rejectUnknown tag ∧
      tag ∈ (run t fs).unknown_tags) ∨
    (∃ d, featureDecision t f = .rejectGeometry d ∧
      d ∈ (run t fs).excluded_by_geometry) := by
  have hrow : (f, get_osm_tag (taxQueryKeys t) f) ∈
      fs.map (fun f => (f, get_osm_tag (taxQueryKeys t) f)) :=
    List.mem_map_of_mem _ hf
  cases hd : featureDecision t f with
  | keep =>
    left
    refine ⟨rfl, ?_⟩
    simp only [run]
    rw [foldl_filterStep_kept]
    simp only [List.nil_append]
    refine List.mem_map.mpr ⟨(f, get_osm_tag (taxQueryKeys t) f), ?_, rfl⟩
    rw [List.mem_filter]
    exact ⟨hrow, decide_eq_true hd⟩
  | rejectUnknown tag =>
    right; left
    refine ⟨tag, rfl, ?_⟩
    simp only [run]
    exact foldl_filterStep_unknown_of _ _ _ _ hrow tag hd
  | rejectGeometry d =>
    right; right
    refine ⟨d, rfl, ?_⟩
    simp only [run]
    exact foldl_filterStep_geom_of _ _ _ _ hrow d hd

/-- Witness for the totality claim: an unconfigured `leisure=garden`
feature is not kept, and its tag lands in the `unknown_tags` diagnostic
set. -/
theorem per_feature_never_aborts_witness :
    (featureDecision ⟨[("leisure", ["park"])],
        [("leisure=park", GeomSpec.str "area")]⟩
        ⟨[("leisure", some "garden")], "Polygon"⟩ = .keep ∧
      projectFeature
        (hasNameColumn [⟨[("leisure", some "garden")], "Polygon"⟩])
        (get_osm_tag (taxQueryKeys ⟨[("leisure", ["park"])],
          [("leisure=park", GeomSpec.str "area")]⟩)
          ⟨[("leisure", some "garden")], "Polygon"⟩)
        ⟨[("leisure", some "garden")], "Polygon"⟩ ∈
        (run ⟨[("leisure", ["park"])],
          [("leisure=park", GeomSpec.str "area")]⟩
          [⟨[("leisure", some "garden")], "Polygon"⟩]).kept) ∨
    (∃ tag, featureDecision ⟨[("leisure", ["park"])],
        [("leisure=park", GeomSpec.str "area")]⟩
        ⟨[("leisure", some "garden")], "Polygon"⟩ = .rejectUnknown tag ∧
      tag ∈ (run ⟨[("leisure", ["park"])],
        [("leisure=park", GeomSpec.str "area")]⟩
        [⟨[("leisure", some "garden")], "Polygon"⟩]).unknown_tags) ∨
    (∃ d, featureDecision ⟨[("leisure", ["park"])],
        [("leisure=park", GeomSpec.str "area")]⟩
        ⟨[("leisure", some "garden")], "Polygon"⟩ = .rejectGeometry d ∧
      d ∈ (run ⟨[("leisure", ["park"])],
        [("leisure=park", GeomSpec.str "area")]⟩
        [⟨[("leisure", some "garden")], "Polygon"⟩]).excluded_by_geometry) :=
  per_feature_never_aborts _ _ _ (List.mem_singleton.mpr rfl)

/-- C8: every kept feature is the projection of some input feature to
exactly the record `{name, osm_tag, geometry}`, and when the input
collection has no `name` column the output's `name` is an explicit null. -/
theorem output_projection_schema (t : CompiledTaxonomy)
    (fs : List RawFeature) (o : OutputFeature) (ho : o ∈ (run t fs).kept) :
    (∃ f, f ∈ fs ∧
      o = { name := if hasNameColumn fs then tagOf f "name" else none,
            osm_tag := get_osm_tag (taxQueryKeys t) f,
            geometry := f.geom_type }) ∧
    (hasNameColumn fs = false → o.name = none) := by
  simp only [run] at ho
  rw [foldl_filterStep_kept] at ho
  simp only [List.nil_append] at ho
  obtain ⟨r, hr, hor⟩ := List.mem_map.mp ho
  obtain ⟨hrow, -⟩ := List.mem_filter.mp hr
  obtain ⟨f, hf, rfl⟩ := List.mem_map.mp hrow
  constructor
  · exact ⟨f, hf, by rw [← hor]; rfl⟩
  · intro hn
    rw [← hor]
    simp [projectFeature, hn]

/-- Witness for the output-schema claim: a nameless kept park polygon is
projected to a record with an explicit null `name`. -/
theorem output_projection_schema_witness :
    (∃ f, f ∈ [(⟨[("leisure", some "park")], "Polygon"⟩ : RawFeature)] ∧
      (OutputFeature.mk none "leisure=park" "Polygon") =
        { name :=
            if hasNameColumn [⟨[("leisure", some "park")], "Polygon"⟩] then
              tagOf f "name"
            else none,
          osm_tag := get_osm_tag (taxQueryKeys ⟨[("leisure", ["park"])],
            [("leisure=park", GeomSpec.str "area")]⟩) f,
          geometry := f.geom_type }) ∧
    (hasNameColumn [(⟨[("leisure", some "park")], "Polygon"⟩ : RawFeature)] =
        false →
      (OutputFeature.mk none "leisure=park" "Polygon").name = none) :=
  output_projection_schema
    ⟨[("leisure", ["park"])], [("leisure=park", GeomSpec.str "area")]⟩
    [⟨[("leisure", some "park")], "Polygon"⟩]
    ⟨none, "leisure=park", "Polygon"⟩ (by decide)

/-- C9: determinism — the whole pipeline is a pure function of the
configuration and the feature collection: two runs agree on the compiled
taxonomy, on the kept sequence, and on both diagnostic sets. -/
theorem pipeline_deterministic (cats : List CategoryConfig)
    (fs : List RawFeature) :
    runPipeline cats fs = runPipeline cats fs ∧
    ∀ t1 t2, compile cats = .ok t1 → compile cats = .ok t2 →
      t1 = t2 ∧ (run t1 fs).kept = (run t2 fs).kept ∧
      (run t1 fs).unknown_tags = (run t2 fs).unknown_tags ∧
      (run t1 fs).excluded_by_geometry =
        (run t2 fs).excluded_by_geometry := by
  refine ⟨rfl, ?_⟩
  intro t1 t2 h1 h2
  rw [h1] at h2
  injection h2 with ht
  subst ht
  exact ⟨rfl, rfl, rfl, rfl⟩

/-- Witness for the determinism claim at a concrete configuration and
collection. -/
theorem pipeline_deterministic_witness :
    (⟨[("leisure", ["park"])], [("leisure=park", GeomSpec.str "area")]⟩ :
        CompiledTaxonomy) =
      ⟨[("leisure", ["park"])], [("leisure=park", GeomSpec.str "area")]⟩ ∧
    (run ⟨[("leisure", ["park"])], [("leisure=park", GeomSpec.str "area")]⟩
        [⟨[("leisure", some "park")], "Polygon"⟩]).kept =
      (run ⟨[("leisure", ["park"])], [("leisure=park", GeomSpec.str "area")]⟩
        [⟨[("leisure", some "park")], "Polygon"⟩]).kept ∧
    (run ⟨[("leisure", ["park"])], [("leisure=park", GeomSpec.str "area")]⟩
        [⟨[("leisure", some "park")], "Polygon"⟩]).unknown_tags =
      (run ⟨[("leisure", ["park"])], [("leisure=park", GeomSpec.str "area")]⟩
        [⟨[("leisure", some "park")], "Polygon"⟩]).unknown_tags ∧
    (run ⟨[("leisure", ["park"])], [("leisure=park", GeomSpec.str "area")]⟩
        [⟨[("leisure", some "park")], "Polygon"⟩]).excluded_by_geometry =
      (run ⟨[("leisure", ["park"])], [("leisure=park", GeomSpec.str "area")]⟩
        [⟨[("leisure", some "park")], "Polygon"⟩]).excluded_by_geometry :=
  (pipeline_deterministic
    [⟨some "green", [("leisure", [⟨some "park", some (.str "area")⟩])]⟩]
    [⟨[("leisure", some "park")], "Polygon"⟩]).2 _ _ rfl rfl

end SoGreen
